import Mathlib

/-!
Verification of the NeverMiss Lite reminder application
(`streamlit_app.py`).

The reminder store is the CSV file `reminders.csv`; it is modelled here
as a `List Row` in file order.  Cells that the tabular layer may leave
empty (`date`, `time`, `notes`) are `Option String`, with `none`
standing for a missing value (pandas `NaN`); `load_reminders` on a
missing file yields the empty list.  Dates are compared through the key
`y * 10000 + m * 100 + d`, whose order on well-formed calendar dates
coincides with chronological order.  The external pieces
(`json.loads`, the completion endpoint) enter as explicit parameters of
the functions that call them.
-/

namespace NeverMiss

/-- One row of the reminder store, with the column schema established by
`load_reminders`: `reminder_id, raw_input, title, category, date, time,
priority, notes, status, created_at`. -/
structure Row where
  reminder_id : Nat
  raw_input : String
  title : String
  category : String
  date : Option String
  time : Option String
  priority : String
  notes : Option String
  status : String
  created_at : String
deriving DecidableEq, Repr

/-- `update_reminder_status(reminder_id, status)`: loads the collection,
executes `reminders.loc[reminders["reminder_id"] == reminder_id,
"status"] = status` (set `status` on every matching row, leave every
other cell alone), and rewrites the file. -/
def update_reminder_status (store : List Row) (id : Nat) (status : String) : List Row :=
  store.map (fun r => if r.reminder_id = id then { r with status := status } else r)

/-- `save_reminder_to_csv(reminder_data)`: loads the collection,
concatenates the one-row frame onto the end (`pd.concat`,
`ignore_index=True`), and rewrites the file. -/
def save_reminder_to_csv (store : List Row) (r : Row) : List Row :=
  store ++ [r]

/-- The row assembled by the Save-button handler.  `reminder_id` is
`len(reminders) + 1`; a `date`/`time` field that is blank after
stripping becomes null; `status` starts as `"pending"`.  The source
builds this row as a dict with NO `"notes"` key, so when `pd.concat`
aligns it against the ten-column schema the appended row's `notes` cell
is filled with `NaN`: the `notes` text collected by the form (the
`notes` argument here) is dropped. -/
def reminder_data (reminders : List Row)
    (user_input title category date time priority notes created_at : String) : Row :=
  { reminder_id := reminders.length + 1
    raw_input := user_input
    title := title
    category := category
    date := if date.trim = "" then none else some date
    time := if time.trim = "" then none else some time
    priority := priority
    notes := none
    status := "pending"
    created_at := created_at }

/-- JSON values, to the extent the application inspects them. -/
inductive JVal where
  | jnull : JVal
  | jbool : Bool → JVal
  | jnum : ℚ → JVal
  | jstr : String → JVal
deriving DecidableEq, Repr

/-- A decoded JSON object: the key/value pairs of the dict produced by
`json.loads`. -/
abbrev JObj := List (String × JVal)

/-- Python `dict.get(k)`: the value at the first matching key, if any. -/
def dictGet (o : JObj) (k : String) : Option JVal :=
  (o.find? (fun p => p.1 = k)).map (fun p => p.2)

/-- The code-fence cleanup inside `parse_with_gemini`: strip the
response, and if it starts with a fence take the text between the first
pair of backtick fences (`json_text.split` at the fence, element 1),
drop a leading `json` language tag (four characters), and strip
again. -/
def clean_json_text (s : String) : String :=
  let t := s.trim
  if t.startsWith "```" then
    let u := (t.splitOn "```").getD 1 ""
    let u := if u.startsWith "json" then u.drop 4 else u
    u.trim
  else t

/-- `parse_with_gemini(user_input)`, parametric in the endpoint's raw
response text (`none` when the call itself raised) and in the JSON
decoder (`json.loads`, with `none` where the library raises).  Every
exception along the way is caught and turned into a `None` return. -/
def parse_with_gemini (decode : String → Option JObj) (response : Option String) :
    Option JObj :=
  match response with
  | none => none
  | some text => decode (clean_json_text text)

/-- The Parse-button handler around the call: `parsed =
parse_with_gemini(user_input)`, then `if parsed:
st.session_state.parsed_reminder = parsed`.  Only a truthy result
overwrites the held draft (an empty dict is falsy in Python); a `None`
result leaves it untouched. -/
def handle_parse (prev : Option JObj) (result : Option JObj) : Option JObj :=
  match result with
  | some p => if p.isEmpty then prev else some p
  | none => prev

/-- The draft's confidence as the review screen reads it:
`parsed.get("confidence", 0.8)`. -/
def confidenceOf (parsed : JObj) : JVal :=
  (dictGet parsed "confidence").getD (JVal.jnum (4 / 5))

/-- C10: `update_reminder_status` sets `status` on every row whose
`reminder_id` matches and changes nothing else: the row count is
unchanged, and position by position each row is the original row, with
only `status` overwritten exactly on the matching rows. -/
theorem update_status_frame (store : List Row) (id : Nat) (status : String) :
    (update_reminder_status store id status).length = store.length ∧
    ∀ i : Nat, (update_reminder_status store id status)[i]? =
      (store[i]?).map
        (fun r => if r.reminder_id = id then { r with status := status } else r) := by
  refine ⟨by simp [update_reminder_status], fun i => ?_⟩
  simp [update_reminder_status, List.getElem?_map]

/-- C7: when no stored row carries the requested `reminder_id`,
`update_reminder_status` is a silent no-op: the function is total (it
signals nothing) and the resulting collection is the original one. -/
theorem update_status_missing_id_noop (store : List Row) (id : Nat) (status : String)
    (h : ∀ r ∈ store, r.reminder_id ≠ id) :
    update_reminder_status store id status = store := by
  unfold update_reminder_status
  induction store with
  | nil => rfl
  | cons r t ih =>
    have hr := h r (List.mem_cons_self r t)
    have ht : ∀ x ∈ t, x.reminder_id ≠ id := fun x hx => h x (List.mem_cons_of_mem r hx)
    simp [List.map_cons, hr, ih ht]

/-- C7 witness: updating id 2 in a store holding only id 1 returns the
store unchanged. -/
theorem update_status_missing_id_noop_witness :
    update_reminder_status
        [⟨1, "see dentist", "Dentist", "appointment", some "2025-01-07", none,
          "High", none, "pending", "2025-01-01T09:00:00"⟩] 2 "completed" =
      [⟨1, "see dentist", "Dentist", "appointment", some "2025-01-07", none,
        "High", none, "pending", "2025-01-01T09:00:00"⟩] :=
  update_status_missing_id_noop _ 2 "completed" (by decide)

/-- C8: if every row matching `id` has status `"pending"`, then
`update_status(id, "completed")` followed by `update_status(id,
"pending")` restores the original collection exactly: matching rows get
their original status back with all other fields untouched, and
non-matching rows never change. -/
theorem update_status_round_trip (store : List Row) (id : Nat)
    (h : ∀ r ∈ store, r.reminder_id = id → r.status = "pending") :
    update_reminder_status (update_reminder_status store id "completed") id "pending" =
      store := by
  unfold update_reminder_status
  induction store with
  | nil => rfl
  | cons r t ih =>
    have hr := h r (List.mem_cons_self r t)
    have ht : ∀ x ∈ t, x.reminder_id = id → x.status = "pending" :=
      fun x hx => h x (List.mem_cons_of_mem r hx)
    simp only [List.map_cons]
    rw [ih ht]
    by_cases hid : r.reminder_id = id
    · have hst := hr hid
      rw [if_pos hid]
      rw [if_pos (show (({ r with status := "completed" } : Row)).reminder_id = id from hid)]
      cases r
      simp_all
    · rw [if_neg hid, if_neg hid]

/-- C8 witness: completing then un-completing id 1 on a two-row store
whose id-1 row is pending restores the store exactly. -/
theorem update_status_round_trip_witness :
    update_reminder_status
        (update_reminder_status
          [⟨1, "a", "Dentist", "appointment", some "2025-01-07", none, "High", none,
            "pending", "t1"⟩,
           ⟨2, "b", "Taxes", "task", none, none, "Low", none, "completed", "t2"⟩]
          1 "completed")
        1 "pending" =
      [⟨1, "a", "Dentist", "appointment", some "2025-01-07", none, "High", none,
        "pending", "t1"⟩,
       ⟨2, "b", "Taxes", "task", none, none, "Low", none, "completed", "t2"⟩] :=
  update_status_round_trip _ 1 (by decide)

/-- C5: whenever `parse_with_gemini` returns a draft whose JSON object
has no `confidence` key, the confidence the application reads for that
draft is exactly 0.8 (`parsed.get("confidence", 0.8)`). -/
theorem confidence_default (decode : String → Option JObj) (text : String) (parsed : JObj)
    (hp : parse_with_gemini decode (some text) = some parsed)
    (hc : dictGet parsed "confidence" = none) :
    confidenceOf parsed = JVal.jnum (4 / 5) := by
  simp [confidenceOf, hc]

/-- C5 witness: a decode producing an object without `confidence` makes
the parse succeed and the read confidence equal 0.8. -/
theorem confidence_default_witness :
    confidenceOf [("title", JVal.jstr "Dentist")] = JVal.jnum (4 / 5) :=
  confidence_default (fun _ => some [("title", JVal.jstr "Dentist")])
    "not a fence" [("title", JVal.jstr "Dentist")] rfl (by decide)

/-- C9: if the completion call raises, or its (cleaned) response text is
not valid JSON, then `parse_with_gemini` returns no draft, and the
Parse-button handler leaves the previously held draft exactly as it
was. -/
theorem parse_failure_preserves_draft (prev : Option JObj)
    (decode : String → Option JObj) (response : Option String)
    (hfail : response = none ∨
      ∃ t, response = some t ∧ decode (clean_json_text t) = none) :
    parse_with_gemini decode response = none ∧
      handle_parse prev (parse_with_gemini decode response) = prev := by
  rcases hfail with h | ⟨t, ht, hd⟩
  · subst h; exact ⟨rfl, rfl⟩
  · subst ht
    simp [parse_with_gemini, hd, handle_parse]

/-- C9 witness: a response the decoder rejects returns no draft and
leaves a previously held draft untouched. -/
theorem parse_failure_preserves_draft_witness :
    parse_with_gemini (fun _ => none) (some "oops, not json") = none ∧
      handle_parse (some [("title", JVal.jstr "Dentist")])
        (parse_with_gemini (fun _ => none) (some "oops, not json")) =
        some [("title", JVal.jstr "Dentist")] :=
  parse_failure_preserves_draft (some [("title", JVal.jstr "Dentist")])
    (fun _ => none) (some "oops, not json") (Or.inr ⟨"oops, not json", rfl, rfl⟩)

/-- Numeric value of a decimal digit character. -/
def digitVal (c : Char) : Nat := c.toNat - 48

/-- Days in a month of the proleptic Gregorian calendar, as used by the
Python `datetime` library. -/
def daysInMonth (y m : Nat) : Nat :=
  if m = 2 then (if (y % 4 = 0 ∧ y % 100 ≠ 0) ∨ y % 400 = 0 then 29 else 28)
  else if m = 4 ∨ m = 6 ∨ m = 9 ∨ m = 11 then 30 else 31

/-- Well-formedness of an ISO `HH:MM` or `HH:MM:SS` time-of-day suffix,
the time shapes `datetime.fromisoformat` accepts on the strings this
application produces. -/
def validTimePart : List Char → Bool
  | [h1, h2, ':', m1, m2] =>
      h1.isDigit && h2.isDigit && m1.isDigit && m2.isDigit &&
      decide (digitVal h1 * 10 + digitVal h2 < 24) &&
      decide (digitVal m1 * 10 + digitVal m2 < 60)
  | [h1, h2, ':', m1, m2, ':', s1, s2] =>
      h1.isDigit && h2.isDigit && m1.isDigit && m2.isDigit &&
      s1.isDigit && s2.isDigit &&
      decide (digitVal h1 * 10 + digitVal h2 < 24) &&
      decide (digitVal m1 * 10 + digitVal m2 < 60) &&
      decide (digitVal s1 * 10 + digitVal s2 < 60)
  | _ => false

/-- Model of `datetime.fromisoformat(s).date()`: a `YYYY-MM-DD` calendar
date, optionally followed by a `T` or space separator and a time part,
which `.date()` discards.  The result is the key
`y * 10000 + m * 100 + d`, whose order on well-formed dates is
chronological; `none` models the `ValueError` the library raises on
anything else. -/
def fromisoformat_date (s : String) : Option Nat :=
  match s.toList with
  | y1 :: y2 :: y3 :: y4 :: '-' :: m1 :: m2 :: '-' :: d1 :: d2 :: rest =>
    if y1.isDigit && y2.isDigit && y3.isDigit && y4.isDigit &&
        m1.isDigit && m2.isDigit && d1.isDigit && d2.isDigit then
      let y := ((digitVal y1 * 10 + digitVal y2) * 10 + digitVal y3) * 10 + digitVal y4
      let m := digitVal m1 * 10 + digitVal m2
      let d := digitVal d1 * 10 + digitVal d2
      if 1 ≤ m ∧ m ≤ 12 ∧ 1 ≤ d ∧ d ≤ daysInMonth y m then
        match rest with
        | [] => some (y * 10000 + m * 100 + d)
        | sep :: timecs =>
          if (sep = 'T' ∨ sep = ' ') ∧ validTimePart timecs = true then
            some (y * 10000 + m * 100 + d)
          else none
      else none
    else none
  | _ => none

/-- `is_overdue(date_str)`.  `today` is the key of
`datetime.now().date()`.  A `none` cell models pandas `NaN`
(`pd.isna`); the empty string is falsy (`not date_str`); the literal
string `"null"` is checked explicitly; a parse error is caught and
yields `False`; otherwise the parsed date (time of day discarded) is
compared strictly against today. -/
def is_overdue (today : Nat) (date_str : Option String) : Bool :=
  match date_str with
  | none => false
  | some s =>
    if s = "" ∨ s = "null" then false
    else
      match fromisoformat_date s with
      | some k => decide (k < today)
      | none => false

/-- C2: `is_overdue` returns `true` exactly when the cell holds a
well-formed date whose day is strictly before today; on an absent
(`NaN`) cell, the `"null"` placeholder, an unparseable string, or a
date on or after today it returns `false`.  The comparison goes through
`fromisoformat_date`, which drops any time-of-day component. -/
theorem is_overdue_iff (today : Nat) (date_str : Option String) :
    is_overdue today date_str = true ↔
      ∃ s k, date_str = some s ∧ fromisoformat_date s = some k ∧ k < today := by
  cases date_str with
  | none => simp [is_overdue]
  | some s =>
    simp only [is_overdue, Option.some.injEq]
    by_cases hnull : s = "" ∨ s = "null"
    · rw [if_pos hnull]
      constructor
      · intro h; exact absurd h (by simp)
      · rintro ⟨s', k, rfl, hk, _⟩
        rcases hnull with rfl | rfl
        · simp [show fromisoformat_date "" = none from rfl] at hk
        · simp [show fromisoformat_date "null" = none from rfl] at hk
    · rw [if_neg hnull]
      cases hk : fromisoformat_date s with
      | none =>
        constructor
        · intro h; exact absurd h (by simp)
        · rintro ⟨s', k, rfl, hk', _⟩
          rw [hk] at hk'; exact absurd hk' (by simp)
      | some k =>
        constructor
        · intro h
          exact ⟨s, k, rfl, hk, by simpa using h⟩
        · rintro ⟨s', k', rfl, hk', hlt⟩
          rw [hk] at hk'
          cases hk'
          simpa using hlt

/-- Total row count shown by the dashboard: `len(reminders)`. -/
def total_count (store : List Row) : Nat := store.length

/-- Pending metric: `len(reminders[reminders["status"] == "pending"])`. -/
def pending_count (store : List Row) : Nat :=
  (store.filter (fun r => r.status = "pending")).length

/-- Completed metric: `len(reminders[reminders["status"] == "completed"])`. -/
def completed_count (store : List Row) : Nat :=
  (store.filter (fun r => r.status = "completed")).length

/-- Overdue metric: `sum(is_overdue(date) and status == "pending" for
date, status in zip(...))`. -/
def overdue_count (today : Nat) (store : List Row) : Nat :=
  store.countP (fun r => is_overdue today r.date && decide (r.status = "pending"))

/-- C3: on any collection of valid Reminder rows (status is one of the
two enumerated values), the summary metrics satisfy
`total = pending + completed` and `overdue ≤ pending`, and the overdue
metric counts exactly the rows that are pending and have an overdue
date — completed rows are never counted. -/
theorem summary_metrics (today : Nat) (store : List Row)
    (hstatus : ∀ r ∈ store, r.status = "pending" ∨ r.status = "completed") :
    total_count store = pending_count store + completed_count store ∧
    overdue_count today store ≤ pending_count store ∧
    overdue_count today store =
      (store.filter (fun r => decide (r.status = "pending") && is_overdue today r.date)).length := by
  refine ⟨?_, ?_, ?_⟩
  · unfold total_count pending_count completed_count
    induction store with
    | nil => rfl
    | cons r t ih =>
      have hr := hstatus r (List.mem_cons_self r t)
      have ht : ∀ x ∈ t, x.status = "pending" ∨ x.status = "completed" :=
        fun x hx => hstatus x (List.mem_cons_of_mem r hx)
      rcases hr with hr | hr <;>
        simp [List.filter, hr, ih ht] <;> omega
  · unfold overdue_count pending_count
    rw [← List.countP_eq_length_filter]
    apply List.countP_mono_left
    intro r _ hmem
    simp only [Bool.and_eq_true, decide_eq_true_eq] at hmem
    simpa using hmem.2
  · unfold overdue_count
    rw [List.countP_eq_length_filter]
    exact congrArg List.length
      (List.filter_congr (fun r _ => Bool.and_comm _ _))

/-- A concrete two-row store: one pending row with a 2025 date, one
completed undated row. -/
def sampleStore : List Row :=
  [⟨1, "a", "Dentist", "appointment", some "2025-01-07", none, "High", none,
    "pending", "t1"⟩,
   ⟨2, "b", "Taxes", "task", none, none, "Low", none, "completed", "t2"⟩]

/-- C3 witness: on a store with one pending overdue row and one
completed row, the metrics evaluate as the theorem states. -/
theorem summary_metrics_witness :
    total_count sampleStore = pending_count sampleStore + completed_count sampleStore ∧
    overdue_count 20260101 sampleStore ≤ pending_count sampleStore ∧
    overdue_count 20260101 sampleStore =
      (sampleStore.filter
        (fun r => decide (r.status = "pending") && is_overdue 20260101 r.date)).length :=
  summary_metrics 20260101 sampleStore (by decide)

/-- Stores reachable from the empty collection by Save-button appends
alone: each step builds its row with `reminder_data` over the current
collection and appends it with `save_reminder_to_csv`. -/
inductive ReachableByAppend : List Row → Prop where
  | empty : ReachableByAppend []
  | step (s : List Row) (ui t c d tm p n ca : String) :
      ReachableByAppend s →
      ReachableByAppend (save_reminder_to_csv s (reminder_data s ui t c d tm p n ca))

/-- In an append-only reachable store, the ids read `1, 2, ..., n` in
order. -/
theorem reachable_ids (s : List Row) (h : ReachableByAppend s) :
    s.map (fun r => r.reminder_id) = List.range' 1 s.length := by
  induction h with
  | empty => rfl
  | step s ui t c d tm p n ca _ ih =>
    simp only [save_reminder_to_csv, List.map_append, ih, List.map_cons, List.map_nil,
      List.length_append, List.length_cons, List.length_nil]
    rw [List.range'_concat]
    simp [reminder_data]
    omega

/-- C6: every freshly created reminder is assigned
`reminder_id = (count of existing rows) + 1`, and in any store built
from empty by appends alone the ids are pairwise distinct. -/
theorem reminder_id_unique :
    (∀ (s : List Row) (ui t c d tm p n ca : String),
        (reminder_data s ui t c d tm p n ca).reminder_id = s.length + 1) ∧
    ∀ s : List Row, ReachableByAppend s →
      (s.map (fun r => r.reminder_id)).Nodup := by
  refine ⟨fun s ui t c d tm p n ca => rfl, fun s h => ?_⟩
  rw [reachable_ids s h]
  exact List.nodup_range' _ _

/-- C6 witness: the two-step append store has distinct ids. -/
theorem reminder_id_unique_witness :
    ((save_reminder_to_csv
        (save_reminder_to_csv [] (reminder_data [] "a" "Dentist" "appointment"
          "2025-01-07" "" "High" "bring card" "t1"))
        (reminder_data
          (save_reminder_to_csv [] (reminder_data [] "a" "Dentist" "appointment"
            "2025-01-07" "" "High" "bring card" "t1"))
          "b" "Taxes" "task" "" "" "Low" "" "t2")).map
      (fun r => r.reminder_id)).Nodup :=
  reminder_id_unique.2 _
    (ReachableByAppend.step _ "b" "Taxes" "task" "" "" "Low" "" "t2"
      (ReachableByAppend.step [] "a" "Dentist" "appointment"
        "2025-01-07" "" "High" "bring card" "t1" ReachableByAppend.empty))

/-- C1: the Save handler drops the notes field.  The form collects the
text `"bring insurance card"` into `notes`, but the dict committed by
the handler has no `notes` key, so the appended row — and hence the row
`load_all` returns — carries an empty (`NaN`) notes cell instead of the
value given at append time.  The remaining nine fields are stored, but
the claimed ten-field round-trip fails on `notes`. -/
theorem append_drops_notes :
    (save_reminder_to_csv []
        (reminder_data [] "dentist tuesday 3pm" "Dentist" "appointment"
          "2025-01-07" "15:00" "High" "bring insurance card" "2025-01-01T09:00:00")).map
      (fun r => r.notes) = [none] := rfl

/-- `pd.to_datetime(date, errors="coerce")` on one cell: a missing cell
or an unparseable string coerces to `NaT` (`none`), a well-formed date
to its key. -/
def to_datetime_coerce (d : Option String) : Option Nat :=
  match d with
  | none => none
  | some s => fromisoformat_date s

/-- The order the sorted listing exhibits on sort keys: real dates
ascend, and every `NaT` key sits after every real date. -/
def dateLE (x y : Option Nat) : Prop :=
  match x, y with
  | some a, some b => a ≤ b
  | some _, none => True
  | none, none => True
  | none, some _ => False

/-- `reminders_sorted`: attach `pd.to_datetime(reminders["date"],
errors="coerce")` as a sort key, `sort_values` ascending with
`na_position="last"`, then drop the key column.  `sort_values` orders
the rows carrying real keys ascending and appends the `NaT` rows in
their original order; the ascending sort on the real-key rows is
realised by a merge sort on the key. -/
def sort_by_date (store : List Row) : List Row :=
  let keyed := store.map (fun r => (to_datetime_coerce r.date, r))
  let valid := keyed.filterMap
    (fun p => match p.1 with | some k => some (k, p.2) | none => none)
  let missing := keyed.filter (fun p => p.1.isNone)
  (valid.mergeSort (fun a b => decide (a.1 ≤ b.1))).map (fun q => q.2) ++
    missing.map (fun p => p.2)

/-- Every keyed pair selected into the real-key part carries the key of
its own row. -/
theorem mem_valid_key (store : List Row) (q : Nat × Row)
    (hq : q ∈ (store.map (fun r => (to_datetime_coerce r.date, r))).filterMap
      (fun p => match p.1 with | some k => some (k, p.2) | none => none)) :
    to_datetime_coerce q.2.date = some q.1 := by
  rcases List.mem_filterMap.mp hq with ⟨p, hp, hgp⟩
  rcases List.mem_map.mp hp with ⟨r, _, rfl⟩
  cases hk : to_datetime_coerce r.date with
  | none => rw [hk] at hgp; exact absurd hgp (by simp)
  | some k =>
    rw [hk] at hgp
    simp only [Option.some.injEq] at hgp
    rw [← hgp]
    exact hk

/-- Every keyed pair kept in the `NaT` part carries a `NaT` key of its
own row. -/
theorem mem_missing_key (store : List Row) (p : Option Nat × Row)
    (hp : p ∈ (store.map (fun r => (to_datetime_coerce r.date, r))).filter
      (fun p => p.1.isNone)) :
    to_datetime_coerce p.2.date = none := by
  rcases List.mem_filter.mp hp with ⟨hmem, hnone⟩
  rcases List.mem_map.mp hmem with ⟨r, _, rfl⟩
  simpa using hnone

/-- Dropping the key from the kept `NaT` pairs recovers exactly the
original rows with missing dates, in order. -/
theorem missing_map_snd (store : List Row) :
    ((store.map (fun r => (to_datetime_coerce r.date, r))).filter
        (fun p => p.1.isNone)).map (fun p => p.2) =
      store.filter (fun r => (to_datetime_coerce r.date).isNone) := by
  induction store with
  | nil => rfl
  | cons r t ih =>
    simp only [List.map_cons, List.filter_cons]
    cases hk : (to_datetime_coerce r.date).isNone with
    | false => simp [hk, ih]
    | true => simp [hk, ih]

/-- The two parts of the sorted listing, concatenated, are a permutation
of the store. -/
theorem sort_parts_perm (store : List Row) :
    List.Perm
      ((((store.map (fun r => (to_datetime_coerce r.date, r))).filterMap
          (fun p => match p.1 with | some k => some (k, p.2) | none => none)).map
        (fun q => q.2)) ++
       (((store.map (fun r => (to_datetime_coerce r.date, r))).filter
          (fun p => p.1.isNone)).map (fun p => p.2)))
      store := by
  induction store with
  | nil => simp
  | cons r t ih =>
    simp only [List.map_cons]
    cases hk : to_datetime_coerce r.date with
    | some k =>
      simp only [List.filterMap_cons, List.filter_cons]
      simp only [Option.isNone_some, Bool.false_eq_true, if_false, List.map_cons]
      exact ih.cons r
    | none =>
      simp only [List.filterMap_cons, List.filter_cons]
      simp only [Option.isNone_none, if_true, List.map_cons]
      exact List.perm_middle.trans (ih.cons r)

/-- C4: `sort_by_date` returns a permutation of the stored rows in which
dated rows come first in ascending date order, every row with a missing
or unparseable date comes after every dated row, and the rows with
missing/unparseable dates keep their original relative order. -/
theorem sort_by_date_spec (store : List Row) :
    List.Pairwise
      (fun a b => dateLE (to_datetime_coerce a.date) (to_datetime_coerce b.date))
      (sort_by_date store) ∧
    List.Perm (sort_by_date store) store ∧
    (sort_by_date store).filter (fun r => (to_datetime_coerce r.date).isNone) =
      store.filter (fun r => (to_datetime_coerce r.date).isNone) := by
  unfold sort_by_date
  refine ⟨?_, ?_, ?_⟩
  · rw [List.pairwise_append]
    refine ⟨?_, ?_, ?_⟩
    · rw [List.pairwise_map]
      have hsorted := @List.sorted_mergeSort (Nat × Row)
        (fun a b => decide (a.1 ≤ b.1))
        (fun a b c hab hbc => by
          simp only [decide_eq_true_eq] at hab hbc ⊢; omega)
        (fun a b => by simpa using Nat.le_total a.1 b.1)
        ((store.map (fun r => (to_datetime_coerce r.date, r))).filterMap
          (fun p => match p.1 with | some k => some (k, p.2) | none => none))
      refine hsorted.imp_of_mem ?_
      intro a b ha hb hab
      have hka := mem_valid_key store a (List.mem_mergeSort.mp ha)
      have hkb := mem_valid_key store b (List.mem_mergeSort.mp hb)
      rw [hka, hkb]
      simpa [dateLE] using hab
    · rw [List.pairwise_map]
      refine List.pairwise_of_forall_mem_list ?_
      intro a ha b hb
      rw [mem_missing_key store a ha, mem_missing_key store b hb]
      trivial
    · intro a ha b hb
      rcases List.mem_map.mp ha with ⟨qa, hqa, rfl⟩
      rcases List.mem_map.mp hb with ⟨pb, hpb, rfl⟩
      rw [mem_valid_key store qa (List.mem_mergeSort.mp hqa),
        mem_missing_key store pb hpb]
      trivial
  · refine List.Perm.trans ?_ (sort_parts_perm store)
    exact List.Perm.append_right _
      (List.Perm.map _ (List.mergeSort_perm _ _))
  · rw [List.filter_append]
    have hvalid : List.filter (fun r => (to_datetime_coerce r.date).isNone)
        ((((store.map (fun r => (to_datetime_coerce r.date, r))).filterMap
          (fun p => match p.1 with | some k => some (k, p.2) | none => none)).mergeSort
            (fun a b => decide (a.1 ≤ b.1))).map (fun q => q.2)) = [] := by
      rw [List.filter_eq_nil_iff]
      intro a ha
      rcases List.mem_map.mp ha with ⟨qa, hqa, rfl⟩
      rw [mem_valid_key store qa (List.mem_mergeSort.mp hqa)]
      simp
    have hmissing : (((store.map (fun r => (to_datetime_coerce r.date, r))).filter
        (fun p => p.1.isNone)).map (fun p => p.2)).filter
          (fun r => (to_datetime_coerce r.date).isNone) =
        ((store.map (fun r => (to_datetime_coerce r.date, r))).filter
          (fun p => p.1.isNone)).map (fun p => p.2) := by
      rw [List.filter_eq_self]
      intro a ha
      rcases List.mem_map.mp ha with ⟨pa, hpa, rfl⟩
      rw [mem_missing_key store pa hpa]
      simp
    rw [hvalid, hmissing, List.nil_append, missing_map_snd]

end NeverMiss
